import Mathlib

/-!
Verification development for the hypermedia codec library (`src/index.js`).

The file shallowly embeds the protocol codec layer of the library:
the multipart (RFC 2046) encoder/decoder (`Multipart.part`, `Multipart.encode`,
`Multipart.decode`, `Multipart.boundary`), the NavAL JSON codec (`Naval.decode`)
and the URI codec (`Uri.encode`, `Uri.decode`).

Modelling conventions:
* JavaScript strings are modelled as Lean `String` (sequences of Unicode
  scalars); `charAt i` is modelled as `Option Char` (`none` models the empty
  string that JS `charAt` returns out of range).
* A JavaScript object used as a body part is modelled as an ordered
  association list `JPart` of key/value pairs with unique keys (JS own
  enumerable string properties in insertion order); a value is either a
  string or a nested array of parts (`JVal`).
* The JS labelled loops of `Multipart.decode` are modelled as fuel-indexed
  recursive functions; the fuel of the top-level wrappers is taken large
  enough that it is never exhausted on terminating runs, and exhaustion
  returns the state accumulated so far (the only JS runs that would need
  unbounded fuel are genuinely non-terminating ones, e.g. an empty boundary).
* `Math.random` is modelled as an ambient stream `rnd : Nat → ℚ` of values
  (with the JS contract `0 ≤ rnd k < 1` as a hypothesis where needed), and
  the boundary generator consumed by nested encoding is modelled as a
  supply `bs : Nat → String` threaded with a counter.
* `JSON.parse` is a platform builtin (not code of this repository); it is
  modelled as an abstract parameter `parse : String → Option Json`
  (`none` models a parse exception).
-/

/-- JavaScript values that can appear as a property of a body-part object:
a string, or a nested array of body parts (each an association list). -/
inductive JVal where
  | str : String → JVal
  | arr : List (List (String × JVal)) → JVal

/-- A body-part object: ordered association list of properties. -/
abbrev JPart := List (String × JVal)

mutual

/-- Decidable equality of `JVal` (the nested inductive blocks deriving). -/
def JVal.decEq (a b : JVal) : Decidable (a = b) :=
  match a, b with
  | .str s, .str t =>
    match instDecidableEqString s t with
    | isTrue h => isTrue (h ▸ rfl)
    | isFalse h => isFalse fun hh => h (JVal.str.inj hh)
  | .str _, .arr _ => isFalse fun h => JVal.noConfusion h
  | .arr _, .str _ => isFalse fun h => JVal.noConfusion h
  | .arr xs, .arr ys =>
    match JVal.decEqParts xs ys with
    | isTrue h => isTrue (h ▸ rfl)
    | isFalse h => isFalse fun hh => h (JVal.arr.inj hh)
termination_by structural a

/-- Decidable equality of part lists. -/
def JVal.decEqParts (a b : List (List (String × JVal))) : Decidable (a = b) :=
  match a, b with
  | [], [] => isTrue rfl
  | [], _ :: _ => isFalse fun h => List.noConfusion h
  | _ :: _, [] => isFalse fun h => List.noConfusion h
  | x :: xs, y :: ys =>
    match JVal.decEqPart x y with
    | isTrue h1 =>
      match JVal.decEqParts xs ys with
      | isTrue h2 => isTrue (by rw [h1, h2])
      | isFalse h2 => isFalse fun hh => h2 (List.cons.inj hh).2
    | isFalse h1 => isFalse fun hh => h1 (List.cons.inj hh).1
termination_by structural a

/-- Decidable equality of a single part (association list). -/
def JVal.decEqPart (a b : List (String × JVal)) : Decidable (a = b) :=
  match a, b with
  | [], [] => isTrue rfl
  | [], _ :: _ => isFalse fun h => List.noConfusion h
  | _ :: _, [] => isFalse fun h => List.noConfusion h
  | (k1, v1) :: xs, (k2, v2) :: ys =>
    match instDecidableEqString k1 k2 with
    | isTrue hk =>
      match JVal.decEq v1 v2 with
      | isTrue hv =>
        match JVal.decEqPart xs ys with
        | isTrue ht => isTrue (by rw [hk, hv, ht])
        | isFalse ht => isFalse fun hh => ht (List.cons.inj hh).2
      | isFalse hv => isFalse fun hh => hv (congrArg Prod.snd (List.cons.inj hh).1)
    | isFalse hk => isFalse fun hh => hk (congrArg Prod.fst (List.cons.inj hh).1)
termination_by structural a

end

instance : DecidableEq JVal := JVal.decEq

instance : DecidableEq JPart := fun a b => JVal.decEqPart a b

mutual

/-- Computable size of a `JVal`, used to pre-compute recursion fuel. -/
def JVal.fuelSize (v : JVal) : Nat :=
  match v with
  | .str _ => 1
  | .arr ps => 1 + JVal.fuelSizeParts ps
termination_by structural v

/-- Computable size of a part list. -/
def JVal.fuelSizeParts (l : List (List (String × JVal))) : Nat :=
  match l with
  | [] => 1
  | p :: rest => 1 + JVal.fuelSizePart p + JVal.fuelSizeParts rest
termination_by structural l

/-- Computable size of a single part. -/
def JVal.fuelSizePart (p : List (String × JVal)) : Nat :=
  match p with
  | [] => 1
  | kv :: rest => 1 + JVal.fuelSize kv.2 + JVal.fuelSizePart rest
termination_by structural p

end

/-- JS `s.charAt(i)`: `none` models the empty string returned out of range. -/
def jsCharAt (s : String) (i : Nat) : Option Char := s.data.get? i

/-- Append a JS `charAt` result to a string (`''` appends nothing). -/
def pushOC (s : String) : Option Char → String
  | some c => s.push c
  | none => s

/-- JS `s.substr(i, len)` (clamped at the ends, like JS). -/
def jsSubstr (s : String) (i len : Nat) : String := String.mk ((s.data.drop i).take len)

/-- JS property read `p[k]` on a body-part object. -/
def jsGet (p : JPart) (k : String) : Option JVal := (p.find? fun kv => kv.1 = k).map fun kv => kv.2

/-- JS property write `p[k] = v`: replaces the value in place if the key
exists, otherwise appends the key at the end (JS insertion order). -/
def jsSet (p : JPart) (k : String) (v : JVal) : JPart :=
  if p.any fun kv => kv.1 = k then p.map fun kv => if kv.1 = k then (k, v) else kv
  else p ++ [(k, v)]

/-- JS truthiness of a part property value: `""` is falsy, every other
string and every array (even `[]`) is truthy. -/
def jsTruthy : JVal → Bool
  | .str s => s ≠ ""
  | .arr _ => true

/-- JS `String.prototype.toLowerCase` on a single character (the ASCII
case mapping, which covers every header name in scope). -/
def jsCharToLower (c : Char) : Char :=
  if 'A' ≤ c ∧ c ≤ 'Z' then Char.ofNat (c.toNat + 32) else c

/-- JS `s.toLowerCase()`. -/
def jsToLower (s : String) : String := String.mk (s.data.map jsCharToLower)

/-- JS string coercion `'' + v` of a part property value: a string is
itself; an array stringifies its elements (objects) joined by `,`. -/
def jsValToString : JVal → String
  | .str s => s
  | .arr ps => String.intercalate "," (ps.map fun _ => "[object Object]")

/-- The RFC 2046 `bchars` alphabet, exactly as in the source
(`src/index.js` lines 57 and 224); the character built by `Char.ofNat 39`
is the apostrophe of the source literal. -/
def Multipart.bChars : String :=
  "0123456789ABCDEFGHIJKLMNOPQRSTUVWXYZabcdefghijklmnopqrstuvwxyz"
    ++ String.singleton (Char.ofNat 39) ++ "()+_,-./:=? "

/-- JS `s.charAt(i)` with a possibly negative/fractional-free index, as a
string: a single character in range, `""` out of range. -/
def jsCharAtStr (s : String) (i : Int) : String :=
  if i < 0 then ""
  else
    match s.data.get? i.toNat with
    | some c => String.singleton c
    | none => ""

/-- `Multipart.boundary` (`src/index.js` lines 50-63): 69 characters drawn
by `Math.floor(Math.random() * bChars.length)` followed by one character
drawn by `Math.floor(Math.random() * (bChars.length - 1))`.  `Math.random`
is modelled by the stream `rnd`. -/
def Multipart.boundary (rnd : Nat → ℚ) : String :=
  ((List.range 69).foldl (fun acc i =>
      acc ++ jsCharAtStr Multipart.bChars ⌊rnd i * (Multipart.bChars.length : ℚ)⌋) "")
    ++ jsCharAtStr Multipart.bChars ⌊rnd 69 * ((Multipart.bChars.length : ℚ) - 1)⌋

/-- The header-line emission loop of `Multipart.part` (`src/index.js`
lines 130-135): every own property except (case-insensitive) `body` is
emitted as `lowercasedname:value`, with `parameter` appended to the value
of a `content-type` header, each line terminated by CRLF. -/
def headerStr (parameter : String) : JPart → String
  | [] => ""
  | kv :: rest =>
    (if jsToLower kv.1 = "body" then ""
     else jsToLower kv.1 ++ ":" ++ jsValToString kv.2
            ++ (if jsToLower kv.1 = "content-type" then parameter else "") ++ "\r\n")
      ++ headerStr parameter rest

mutual

/-- `Multipart.part` (`src/index.js` lines 115-142), fuel-indexed.
`bs`/`k` model the stream of boundaries produced by `Multipart.boundary()`
for nested multipart content; the result pairs the encoded part with the
next stream position. -/
def encodePart (fuel : Nat) (bs : Nat → String) (k : Nat) (p : JPart) : String × Nat :=
  match fuel with
  | 0 => ("", k)
  | fuel + 1 =>
    let content : Option JVal :=
      match jsGet p "Body" with
      | some v => if jsTruthy v then some v else jsGet p "body"
      | none => jsGet p "body"
    let multipart : Bool := match content with | some (JVal.arr _) => true | _ => false
    let boundary := if multipart then bs k else ""
    let k := if multipart then k + 1 else k
    let parameter := if multipart then "; boundary=" ++ "\"" ++ boundary ++ "\"" else ""
    let hdrs := headerStr parameter p
    match content with
    | some (JVal.arr ps) =>
      let (inner, k2) := encodeList fuel bs k ps boundary
      (hdrs ++ "\r\n" ++ inner, k2)
    | some (JVal.str s) => if s = "" then (hdrs, k) else (hdrs ++ "\r\n" ++ s, k)
    | none => (hdrs, k)
termination_by structural fuel

/-- `Multipart.encode` (`src/index.js` lines 181-208), fuel-indexed. -/
def encodeList (fuel : Nat) (bs : Nat → String) (k : Nat) (parts : List JPart)
    (boundary : String) : String × Nat :=
  match fuel with
  | 0 => ("", k)
  | fuel + 1 =>
    let (inner, k2) := encodeIter fuel bs k parts 0 parts.length boundary ""
    ("--" ++ boundary ++ "\r\n" ++ inner ++ "\r\n" ++ "--" ++ boundary ++ "--", k2)
termination_by structural fuel

/-- The per-part loop of `Multipart.encode` (`src/index.js` lines 198-205):
append each encoded part, inserting `\r\n--boundary\r\n` between parts. -/
def encodeIter (fuel : Nat) (bs : Nat → String) (k : Nat) (parts : List JPart) (idx total : Nat)
    (boundary acc : String) : String × Nat :=
  match fuel, parts with
  | 0, _ => (acc, k)
  | _ + 1, [] => (acc, k)
  | fuel + 1, p :: rest =>
    let (s, k2) := encodePart fuel bs k p
    let acc := acc ++ s ++
      (if total > 1 ∧ idx < total - 1 then "\r\n" ++ "--" ++ boundary ++ "\r\n" else "")
    encodeIter fuel bs k2 rest (idx + 1) total boundary acc
termination_by structural fuel

end

/-- `Multipart.part`, with fuel large enough for the nesting depth. -/
def Multipart.part (p : JPart) (bs : Nat → String) : String :=
  (encodePart (JVal.fuelSizePart p * 2 + 8) bs 0 p).1

/-- `Multipart.encode`, with fuel large enough for the nesting depth. -/
def Multipart.encode (parts : List JPart) (boundary : String) (bs : Nat → String) : String :=
  (encodeList (JVal.fuelSizeParts parts * 2 + 8) bs 0 parts boundary).1

/-- JS `bChars.lastIndexOf(c) !== -1` where `c` is a `charAt` result: for
the empty string (`none`) JS `lastIndexOf('')` returns the length, which
is not `-1`, so the test is true. -/
def jsIsBchar : Option Char → Bool
  | none => true
  | some ch => Multipart.bChars.data.contains ch

/-- The inner boundary comparison loop of `Multipart.decode`
(`src/index.js` lines 231-232 and 322-323): scan `j` upward while
`body.charAt(off + j) === boundary.charAt(j)`, reporting a match when
`j === boundary.length - 1` is reached (JS number comparison, hence the
cast through `Int`). -/
def boundaryMatch : Nat → String → String → Nat → Nat → Bool
  | 0, _, _, _, _ => false
  | fuel + 1, body, boundary, off, j =>
    if jsCharAt body (off + j) = jsCharAt boundary j then
      if (j : Int) = (boundary.length : Int) - 1 then true
      else boundaryMatch fuel body boundary off (j + 1)
    else false

/-- The whitespace skip after a boundary delimiter (`src/index.js`
lines 243-245): `while (charAt(i+1) === ' ' || charAt(i+1) === '\t') i += 1`. -/
def skipWS : Nat → String → Nat → Nat
  | 0, _, i => i
  | fuel + 1, body, i =>
    if jsCharAt body (i + 1) = some ' ' ∨ jsCharAt body (i + 1) = some '\t' then
      skipWS fuel body (i + 1)
    else i

/-- The parameter whitespace skip (`src/index.js` lines 278-280):
`do { c = charAt(i += 1) } while (c === ' ' || c === '\t')`; returns the
final `i` and `c`. -/
def paramSkipWS : Nat → String → Nat → Nat × Option Char
  | 0, body, i => (i, jsCharAt body i)
  | fuel + 1, body, i =>
    let j := i + 1
    let c := jsCharAt body j
    if c = some ' ' ∨ c = some '\t' then paramSkipWS fuel body j else (j, c)

/-- The `boundary=` parameter value scan (`src/index.js` lines 282-289):
consume bchars and double quotes, accumulating the bchars into
`partBoundary`; returns the final `i`, `c` and `partBoundary`. -/
def partBoundaryLoop : Nat → String → Nat → Option Char → String → Nat × Option Char × String
  | 0, _, i, c, partBoundary => (i, c, partBoundary)
  | fuel + 1, body, i, c, partBoundary =>
    let isB := jsIsBchar c
    if isB ∨ c = some '"' then
      partBoundaryLoop fuel body (i + 1) (jsCharAt body (i + 1))
        (if isB then pushOC partBoundary c else partBoundary)
    else (i, c, partBoundary)

/-- The labelled `fieldBodyArea` loop of `Multipart.decode`
(`src/index.js` lines 265-314): scan a header field body, handling the
`; boundary=` parameter cut, header folding (CRLF + space/tab retained as
the whitespace character), and field termination (CRLF + other character
records `part[fieldName] = fieldBody`).  Returns
`(i, c, fieldName, fieldBody, partBoundary, part)`. -/
def fieldBodyLoop : Nat → String → Nat → Option Char → String → String → String → JPart →
    Nat × Option Char × String × String × String × JPart
  | 0, _, i, c, fieldName, fieldBody, partBoundary, part =>
    (i, c, fieldName, fieldBody, partBoundary, part)
  | fuel + 1, body, i, c, fieldName, fieldBody, partBoundary, part =>
    match c with
    | none => (i, none, fieldName, fieldBody, partBoundary, part)
    | some ch =>
      if ch.val < 128 then
        let s : Nat × Option Char × String :=
          if ch = ';' then
            let start := i
            let (i1, c1) := paramSkipWS fuel body i
            let (i2, c2, pb2) :=
              if jsSubstr body i1 9 = "boundary=" then
                partBoundaryLoop fuel body (i1 + 9) (jsCharAt body (i1 + 9)) partBoundary
              else (i1, c1, partBoundary)
            if pb2 = "" then (start, jsCharAt body start, pb2) else (i2, c2, pb2)
          else (i, some ch, partBoundary)
        match s with
        | (i, c, partBoundary) =>
          if c = some '\r' ∧ jsCharAt body (i + 1) = some '\n' then
            let i := i + 2
            let c2 := jsCharAt body i
            if c2 ≠ some ' ' ∧ c2 ≠ some '\t' then
              (i, c2, "", "", partBoundary, jsSet part fieldName (JVal.str fieldBody))
            else
              fieldBodyLoop fuel body (i + 1) (jsCharAt body (i + 1)) fieldName
                (pushOC fieldBody c2) partBoundary part
          else
            fieldBodyLoop fuel body (i + 1) (jsCharAt body (i + 1)) fieldName
              (pushOC fieldBody c) partBoundary part
      else (i, some ch, fieldName, fieldBody, partBoundary, part)

/-- The labelled `fieldNameArea` loop of `Multipart.decode`
(`src/index.js` lines 259-316): accumulate printable non-colon characters
into a field name; on `:` switch to the field body scan and resume with
its final state.  Returns `(i, c, partBoundary, part)`. -/
def fieldNameLoop : Nat → String → Nat → Option Char → String → String → String → JPart →
    Nat × Option Char × String × JPart
  | 0, _, i, c, _, _, partBoundary, part => (i, c, partBoundary, part)
  | fuel + 1, body, i, c, fieldName, fieldBody, partBoundary, part =>
    match c with
    | none => (i, none, partBoundary, part)
    | some ch =>
      if (' ' < ch ∧ ch < ':') ∨ (':' < ch ∧ ch ≤ '~') then
        let fieldName := fieldName.push ch
        let i := i + 1
        let c := jsCharAt body i
        if c = some ':' then
          let i := i + 1
          let c := jsCharAt body i
          match fieldBodyLoop fuel body i c fieldName fieldBody partBoundary part with
          | (i, c, fieldName, fieldBody, partBoundary, part) =>
            fieldNameLoop fuel body i c fieldName fieldBody partBoundary part
        else fieldNameLoop fuel body i c fieldName fieldBody partBoundary part
      else (i, some ch, partBoundary, part)

/-- The labelled `partBodyArea` loop of `Multipart.decode`
(`src/index.js` lines 318-329): accumulate characters into the part body
until a CRLF followed by `--boundary` is seen (the delimiter itself is
not consumed).  Returns the final `i` and the accumulated body. -/
def partBodyLoop : Nat → String → String → Nat → String → Nat × String
  | 0, _, _, i, partBody => (i, partBody)
  | fuel + 1, body, boundary, i, partBody =>
    match jsCharAt body i with
    | none => (i, partBody)
    | some c =>
      if c = '\r' ∧ jsCharAt body (i + 1) = some '\n' ∧ jsCharAt body (i + 2) = some '-'
          ∧ jsCharAt body (i + 3) = some '-' ∧ boundaryMatch fuel body boundary (i + 4) 0 then
        (i, partBody)
      else partBodyLoop fuel body boundary (i + 1) (partBody.push c)

/-- The labelled `tokenize` loop of `Multipart.decode` (`src/index.js`
lines 227-335): seek `--boundary` delimiters (stopping at the closing
`--boundary--`), and after each delimiter scan one body part (header
fields, then the part body, decoded recursively when a nested
`boundary=` parameter was captured). -/
def decodeTok : Nat → String → String → Nat → Bool → List JPart → List JPart
  | 0, _, _, _, _, parts => parts
  | fuel + 1, body, boundary, i, bodyPartFollows, parts =>
    match jsCharAt body i with
    | none => parts
    | some c =>
      if c = '-' ∧ jsCharAt body (i + 1) = some '-' then
        if boundaryMatch fuel body boundary (i + 2) 0 then
          let i1 := i + 1 + boundary.length
          if jsCharAt body (i1 + 1) = some '-' ∧ jsCharAt body (i1 + 2) = some '-' then parts
          else
            let i2 := skipWS fuel body i1
            let i3 :=
              if jsCharAt body (i2 + 1) = some '\r' ∧ jsCharAt body (i2 + 2) = some '\n' then
                i2 + 2
              else i2
            decodeTok fuel body boundary (i3 + 1) true parts
        else decodeTok fuel body boundary (i + 1) bodyPartFollows parts
      else if bodyPartFollows then
        match fieldNameLoop fuel body i (some c) "" "" "" [] with
        | (i1, c1, partBoundary, part) =>
          if c1 = some '\r' ∧ jsCharAt body (i1 + 1) = some '\n' then
            match partBodyLoop fuel body boundary (i1 + 2) "" with
            | (i2, partBody) =>
              let bval :=
                if partBoundary ≠ "" then JVal.arr (decodeTok fuel partBody partBoundary 0 false [])
                else JVal.str partBody
              decodeTok fuel body boundary (i2 + 1) false (parts ++ [jsSet part "body" bval])
          else decodeTok fuel body boundary (i1 + 1) false (parts ++ [part])
      else decodeTok fuel body boundary (i + 1) bodyPartFollows parts

/-- `Multipart.decode` (`src/index.js` lines 222-338), with fuel large
enough for every terminating run on the given input. -/
def Multipart.decode (body boundary : String) : List JPart :=
  decodeTok ((body.length + 4) * (body.length + 4) * 4) body boundary 0 false []

/-- JSON values as produced by the platform `JSON.parse` builtin. -/
inductive Json where
  | null : Json
  | bool : Bool → Json
  | num : Int → Json
  | str : String → Json
  | arr : List Json → Json
  | obj : List (String × Json) → Json

/-- `Naval.decode` (`src/index.js` lines 415-422): `JSON.parse` is the
abstract parameter `parse` (`none` models a parse exception, which the
source catches, logs, and recovers from by leaving `naval` a string, so
that the final `Array.isArray` test fails); the result is the parsed
array, or `[]` when parsing failed or produced a non-array. -/
def Naval.decode (parse : String → Option Json) (naval : String) : List Json :=
  match parse naval with
  | some (Json.arr l) => l
  | some _ => []
  | none => []

/-- JS line terminators, which `.` in a regular expression does not match. -/
def jsLineTerm (c : Char) : Bool :=
  c == '\n' || c == '\r' || c == Char.ofNat 0x2028 || c == Char.ofNat 0x2029

/-- The five main captures of the RFC 3986 appendix-B regular expression
used by `Uri.decode` (`src/index.js` line 567):
`^(([^:/?#]+):)?(\/\/([^\/?#]*))?([^?#]*)(\?([^#]*))?(#(.*))?`.
Because every character class excludes its terminator, the greedy
first-match-wins semantics is the deterministic split implemented here;
`leftover` is the tail the expression does not match (nonempty exactly
when the fragment contains a line terminator, which `.` cannot match). -/
structure UriSplit where
  scheme : Option (List Char)
  authority : Option (List Char)
  path : List Char
  query : Option (List Char)
  fragment : Option (List Char)
  leftover : List Char

/-- The scheme group `(([^:/?#]+):)?`: a nonempty run of characters other
than `:/?#` followed by a literal `:` (no backtracking is possible since
the class excludes the colon). -/
def splitScheme (l : List Char) : Option (List Char) × List Char :=
  let t := l.takeWhile fun c => !(c == ':' || c == '/' || c == '?' || c == '#')
  let d := l.dropWhile fun c => !(c == ':' || c == '/' || c == '?' || c == '#')
  if t ≠ [] ∧ d.head? = some ':' then (some t, d.tail) else (none, l)

/-- The authority group `(\/\/([^\/?#]*))?`: a literal `//` followed by a
run of characters other than `/?#`. -/
def splitAuthority (l : List Char) : Option (List Char) × List Char :=
  if l.take 2 = ['/', '/'] then
    (some ((l.drop 2).takeWhile fun c => !(c == '/' || c == '?' || c == '#')),
     (l.drop 2).dropWhile fun c => !(c == '/' || c == '?' || c == '#'))
  else (none, l)

/-- The query group `(\?([^#]*))?`: a literal `?` followed by a run of
characters other than `#`. -/
def splitQuery (l : List Char) : Option (List Char) × List Char :=
  if l.head? = some '?' then
    (some (l.tail.takeWhile fun c => !(c == '#')), l.tail.dropWhile fun c => !(c == '#'))
  else (none, l)

/-- The fragment group `(#(.*))?`: a literal `#` followed by `.*`, which
stops at the first line terminator. -/
def splitFragment (l : List Char) : Option (List Char) × List Char :=
  if l.head? = some '#' then
    (some (l.tail.takeWhile fun c => !(jsLineTerm c)), l.tail.dropWhile fun c => !(jsLineTerm c))
  else (none, l)

/-- Deterministic evaluation of the appendix-B regular expression. -/
def uriSplit (l : List Char) : UriSplit :=
  let s1 := splitScheme l
  let a1 := splitAuthority s1.2
  let q1 := splitQuery (a1.2.dropWhile fun c => !(c == '?' || c == '#'))
  let f1 := splitFragment q1.2
  ⟨s1.1, a1.1, a1.2.takeWhile fun c => !(c == '?' || c == '#'), q1.1, f1.1, f1.2⟩

/-- Capture 0 of the appendix-B expression: the prefix actually matched. -/
def uriMatched (u : UriSplit) : List Char :=
  (match u.scheme with | some sc => sc ++ [':'] | none => []) ++
  (match u.authority with | some a => '/' :: '/' :: a | none => []) ++
  u.path ++
  (match u.query with | some q => '?' :: q | none => []) ++
  (match u.fragment with | some f => '#' :: f | none => [])

/-- Captures of the authority sub-expression `^(([^@]+)@)?(([^:]*)(:(.*))?)`
applied by `Uri.decode` to the authority (`src/index.js` line 572). -/
structure AuthSplit where
  userinfo : Option (List Char)
  hostport : List Char
  host : List Char
  port : Option (List Char)

/-- Deterministic evaluation of the authority sub-expression. -/
def authSplit (a : List Char) : AuthSplit :=
  let t := a.takeWhile fun c => !(c == '@')
  let d := a.dropWhile fun c => !(c == '@')
  let ui : Option (List Char) × List Char :=
    if t ≠ [] ∧ d.head? = some '@' then (some t, d.tail) else (none, a)
  let host := ui.2.takeWhile fun c => !(c == ':')
  let hRest := ui.2.dropWhile fun c => !(c == ':')
  let port : Option (List Char) :=
    if hRest.head? = some ':' then some (hRest.tail.takeWhile fun c => !(jsLineTerm c)) else none
  ⟨ui.1, host ++ (match port with | some p => ':' :: p | none => []), host, port⟩

/-- Captures of the userinfo sub-expression `^([^:]*)(:(.*))?`
(`src/index.js` line 573). -/
structure UserinfoSplit where
  username : List Char
  password : Option (List Char)

/-- Deterministic evaluation of the userinfo sub-expression. -/
def userinfoSplit (u : List Char) : UserinfoSplit :=
  ⟨u.takeWhile fun c => !(c == ':'),
   match u.dropWhile fun c => !(c == ':') with
   | ':' :: rest => some (rest.takeWhile fun c => !(jsLineTerm c))
   | _ => none⟩

/-- The object returned by `Uri.decode` (`src/index.js` lines 574-599);
every field is coerced with `|| ''`, so all fields are total strings. -/
structure UriParts where
  uri : String
  scheme : String
  authority : String
  path : String
  query : String
  fragment : String
  userinfo : String
  href : String
  protocol : String
  pathname : String
  search : String
  hash : String
  auth : String
  host : String
  hostname : String
  port : String
  username : String
  password : String
  origin : String
deriving DecidableEq, Repr

/-- `Uri.decode` (`src/index.js` lines 565-600). -/
def Uri.decode (s : String) : UriParts :=
  let u := uriSplit s.data
  let a := authSplit (u.authority.getD [])
  let w := userinfoSplit (a.userinfo.getD [])
  { uri := String.mk (uriMatched u)
    scheme := String.mk (u.scheme.getD [])
    authority := String.mk (u.authority.getD [])
    path := String.mk u.path
    query := String.mk (u.query.getD [])
    fragment := String.mk (u.fragment.getD [])
    userinfo := String.mk (a.userinfo.getD [])
    href := String.mk (uriMatched u)
    protocol := match u.scheme with | some sc => String.mk (sc ++ [':']) | none => ""
    pathname := String.mk u.path
    search := match u.query with | some q => String.mk ('?' :: q) | none => ""
    hash := match u.fragment with | some f => String.mk ('#' :: f) | none => ""
    auth := String.mk (a.userinfo.getD [])
    host := String.mk a.hostport
    hostname := String.mk a.host
    port := String.mk (a.port.getD [])
    username := String.mk w.username
    password := String.mk (w.password.getD [])
    origin :=
      match u.scheme, a.hostport with
      | some sc, _ :: _ => String.mk sc ++ "://" ++ String.mk a.hostport
      | _, _ => "" }

/-- `Uri.encode` (`src/index.js` lines 491-513): recompose the five main
components, omitting each optional separator when the component is falsy
(absent and empty are treated alike). -/
def Uri.encode (u : UriParts) : String :=
  (if u.scheme ≠ "" then u.scheme ++ ":" else "") ++
  (if u.authority ≠ "" then "//" ++ u.authority else "") ++
  u.path ++
  (if u.query ≠ "" then "?" ++ u.query else "") ++
  (if u.fragment ≠ "" then "#" ++ u.fragment else "")

/-- Specification-side description of a headers-only part encoding (the
claim's words): the lower-cased header lines of the non-body properties,
each terminated by CRLF, and nothing else. -/
def partHeaderLines (p : JPart) : String :=
  ((p.filter fun kv => jsToLower kv.1 ≠ "body").map
      fun kv => jsToLower kv.1 ++ ":" ++ jsValToString kv.2 ++ "\r\n").foldr (· ++ ·) ""

theorem strMk_append (a b : List Char) : String.mk a ++ String.mk b = String.mk (a ++ b) := rfl

theorem strMk_data (s : String) : String.mk s.data = s := rfl

theorem strMk_ne_empty {l : List Char} (h : l ≠ []) : String.mk l ≠ "" := by
  intro hc
  exact h (congrArg String.data hc)

/-! ## Multipart scanner lemmas (toward the single-part round trip) -/

theorem splitScheme_spec (l : List Char) :
    (match (splitScheme l).1 with | some sc => sc ++ [':'] | none => []) ++ (splitScheme l).2
      = l := by
  have hl := List.takeWhile_append_dropWhile
    (fun c => !(c == ':' || c == '/' || c == '?' || c == '#')) l
  simp only [splitScheme]
  split_ifs with h
  · obtain ⟨-, hh⟩ := h
    simp only []
    rcases hd : l.dropWhile fun c => !(c == ':' || c == '/' || c == '?' || c == '#') with - | ⟨c, r⟩
    · rw [hd] at hh
      simp at hh
    · rw [hd] at hh hl
      simp only [List.head?] at hh
      injection hh with hc
      subst hc
      simpa [List.append_assoc] using hl
  · simp

theorem splitScheme_some_ne {l sc : List Char} (h : (splitScheme l).1 = some sc) : sc ≠ [] := by
  simp only [splitScheme] at h
  split_ifs at h with hc
  injection h with h
  subst h
  exact hc.1

theorem splitAuthority_spec (l : List Char) :
    (match (splitAuthority l).1 with | some a => '/' :: '/' :: a | none => [])
        ++ (splitAuthority l).2 = l := by
  simp only [splitAuthority]
  split_ifs with h
  · have h2 := List.take_append_drop 2 l
    rw [h] at h2
    have ht := List.takeWhile_append_dropWhile
      (fun c => !(c == '/' || c == '?' || c == '#')) (l.drop 2)
    simp only []
    rw [← h2]
    simpa [List.append_assoc] using ht
  · simp

theorem splitQuery_spec (l : List Char) :
    (match (splitQuery l).1 with | some q => '?' :: q | none => []) ++ (splitQuery l).2 = l := by
  simp only [splitQuery]
  split_ifs with h
  · rcases hd : l with - | ⟨c, r⟩
    · rw [hd] at h
      simp at h
    · rw [hd] at h
      simp only [List.head?] at h
      injection h with hc
      subst hc
      simpa using List.takeWhile_append_dropWhile (fun c => !(c == '#')) r
  · simp

theorem splitFragment_spec (l : List Char) :
    (match (splitFragment l).1 with | some f => '#' :: f | none => [])
        ++ (splitFragment l).2 = l := by
  simp only [splitFragment]
  split_ifs with h
  · rcases hd : l with - | ⟨c, r⟩
    · rw [hd] at h
      simp at h
    · rw [hd] at h
      simp only [List.head?] at h
      injection h with hc
      subst hc
      simpa using List.takeWhile_append_dropWhile (fun c => !(jsLineTerm c)) r
  · simp

theorem uriSplit_reconstruct (l : List Char) :
    uriMatched (uriSplit l) ++ (uriSplit l).leftover = l := by
  unfold uriSplit uriMatched
  have hs := splitScheme_spec l
  have ha := splitAuthority_spec (splitScheme l).2
  have hp := List.takeWhile_append_dropWhile
    (fun c => !(c == '?' || c == '#')) (splitAuthority (splitScheme l).2).2
  have hq := splitQuery_spec ((splitAuthority (splitScheme l).2).2.dropWhile
    fun c => !(c == '?' || c == '#'))
  have hf := splitFragment_spec (splitQuery ((splitAuthority (splitScheme l).2).2.dropWhile
    fun c => !(c == '?' || c == '#'))).2
  simp only [List.append_assoc] at *
  rw [hf, hq, hp, ha, hs]

theorem uriSplit_scheme (l : List Char) : (uriSplit l).scheme = (splitScheme l).1 := rfl

theorem uriDecode_uri (s : String) : (Uri.decode s).uri = String.mk (uriMatched (uriSplit s.data)) := rfl

theorem uriDecode_href (s : String) : (Uri.decode s).href = String.mk (uriMatched (uriSplit s.data)) := rfl

theorem uriDecode_scheme (s : String) :
    (Uri.decode s).scheme = String.mk ((uriSplit s.data).scheme.getD []) := rfl

theorem uriDecode_authority (s : String) :
    (Uri.decode s).authority = String.mk ((uriSplit s.data).authority.getD []) := rfl

theorem uriDecode_path (s : String) : (Uri.decode s).path = String.mk (uriSplit s.data).path := rfl

theorem uriDecode_query (s : String) :
    (Uri.decode s).query = String.mk ((uriSplit s.data).query.getD []) := rfl

theorem uriDecode_fragment (s : String) :
    (Uri.decode s).fragment = String.mk ((uriSplit s.data).fragment.getD []) := rfl

/-- C10 (amended): whenever the appendix-B expression consumes the whole
input (no unmatched tail, i.e. no line terminator inside the fragment),
`Uri.decode` reports the input itself in `uri` and `href`. -/
theorem uri_decode_total_href (s : String)
    (hl : (uriSplit s.data).leftover = []) :
    (Uri.decode s).uri = s ∧ (Uri.decode s).href = s := by
  have hrec := uriSplit_reconstruct s.data
  rw [hl, List.append_nil] at hrec
  rw [uriDecode_uri, uriDecode_href, hrec]
  exact ⟨strMk_data s, strMk_data s⟩

/-- C10 (counterexample): on an input whose fragment contains a line
terminator, the splitting expression does not match the entire input, and
`uri`/`href` are a strict prefix of it. -/
theorem uri_decode_uri_ne_input :
    (Uri.decode "http://h/p#a\nb").uri = "http://h/p#a"
      ∧ "http://h/p#a" ≠ "http://h/p#a\nb" := by
  constructor
  · rfl
  · decide

/-- C4 (amended): `Uri.encode (Uri.decode s) = s` for every string in
which the authority, query and fragment components, when present, are
nonempty, and the appendix-B expression consumes the whole input. -/
theorem uri_encode_decode_eq (s : String)
    (ha : (uriSplit s.data).authority ≠ some [])
    (hq : (uriSplit s.data).query ≠ some [])
    (hf : (uriSplit s.data).fragment ≠ some [])
    (hl : (uriSplit s.data).leftover = []) :
    Uri.encode (Uri.decode s) = s := by
  have hrec := uriSplit_reconstruct s.data
  rw [hl, List.append_nil] at hrec
  have h1 : (if (Uri.decode s).scheme ≠ "" then (Uri.decode s).scheme ++ ":" else "")
      = String.mk (match (uriSplit s.data).scheme with
                   | some sc => sc ++ [':'] | none => []) := by
    rw [uriDecode_scheme]
    rcases hsc : (uriSplit s.data).scheme with - | sc
    · simp
    · have hne : sc ≠ [] := splitScheme_some_ne ((uriSplit_scheme s.data) ▸ hsc)
      rw [if_pos (by simpa using strMk_ne_empty hne)]
      rfl
  have h2 : (if (Uri.decode s).authority ≠ "" then "//" ++ (Uri.decode s).authority else "")
      = String.mk (match (uriSplit s.data).authority with
                   | some a => '/' :: '/' :: a | none => []) := by
    rw [uriDecode_authority]
    rcases hau : (uriSplit s.data).authority with - | a
    · simp
    · have hne : a ≠ [] := by
        intro hnil
        exact ha (by rw [hau, hnil])
      rw [if_pos (by simpa using strMk_ne_empty hne)]
      rfl
  have h4 : (if (Uri.decode s).query ≠ "" then "?" ++ (Uri.decode s).query else "")
      = String.mk (match (uriSplit s.data).query with
                   | some q => '?' :: q | none => []) := by
    rw [uriDecode_query]
    rcases hqu : (uriSplit s.data).query with - | q
    · simp
    · have hne : q ≠ [] := by
        intro hnil
        exact hq (by rw [hqu, hnil])
      rw [if_pos (by simpa using strMk_ne_empty hne)]
      rfl
  have h5 : (if (Uri.decode s).fragment ≠ "" then "#" ++ (Uri.decode s).fragment else "")
      = String.mk (match (uriSplit s.data).fragment with
                   | some f => '#' :: f | none => []) := by
    rw [uriDecode_fragment]
    rcases hfr : (uriSplit s.data).fragment with - | f
    · simp
    · have hne : f ≠ [] := by
        intro hnil
        exact hf (by rw [hfr, hnil])
      rw [if_pos (by simpa using strMk_ne_empty hne)]
      rfl
  calc Uri.encode (Uri.decode s)
      = (if (Uri.decode s).scheme ≠ "" then (Uri.decode s).scheme ++ ":" else "") ++
        (if (Uri.decode s).authority ≠ "" then "//" ++ (Uri.decode s).authority else "") ++
        (Uri.decode s).path ++
        (if (Uri.decode s).query ≠ "" then "?" ++ (Uri.decode s).query else "") ++
        (if (Uri.decode s).fragment ≠ "" then "#" ++ (Uri.decode s).fragment else "") := rfl
    _ = s := by
        rw [h1, h2, h4, h5, uriDecode_path]
        rw [strMk_append, strMk_append, strMk_append, strMk_append]
        show String.mk (uriMatched (uriSplit s.data)) = s
        rw [hrec]

/-- C4 (witness for the amended theorem): the specification's concrete
absolute URI round-trips through decode and encode. -/
theorem uri_encode_decode_eq_witness :
    Uri.encode (Uri.decode "http://www.google.com:80/search?query=text#result")
      = "http://www.google.com:80/search?query=text#result" :=
  uri_encode_decode_eq "http://www.google.com:80/search?query=text#result"
    (by decide) (by decide) (by decide) (by decide)

/-- C4 (counterexample): `file:///etc/hosts` is a well-formed absolute URI
(empty authority, present separator), but re-encoding its decoding drops
the `//`, so `encode (decode s) = s` fails on it. -/
theorem uri_encode_decode_ne :
    Uri.encode (Uri.decode "file:///etc/hosts") = "file:/etc/hosts"
      ∧ "file:/etc/hosts" ≠ "file:///etc/hosts" := by
  constructor
  · rfl
  · decide

/-- C5 (counterexample): a trailing `?` (query present but empty) and no
`?` at all (query absent) re-encode to the same string, so re-encoding
does not reproduce the two states distinctly. -/
theorem uri_empty_query_not_distinct :
    Uri.encode (Uri.decode "/search?") = "/search"
      ∧ Uri.encode (Uri.decode "/search") = "/search" := ⟨rfl, rfl⟩

/-- C5 (amended): `Uri.decode` collapses the absent and present-but-empty
states of a component to `""` in the component field (the separator
survives only in the derived `search`/`hash`/`protocol` fields), and
`Uri.encode` omits every empty component, so re-encoding maps both states
to the same separator-free string. -/
theorem uri_empty_query_collapsed :
    (Uri.decode "/search?").query = "" ∧ (Uri.decode "/search").query = ""
      ∧ (Uri.decode "/search?").search = "?" ∧ (Uri.decode "/search").search = ""
      ∧ Uri.encode (Uri.decode "/search?") = Uri.encode (Uri.decode "/search") :=
  ⟨rfl, rfl, rfl, rfl, rfl⟩

/-! ## Boundary generator lemmas -/

theorem bChars_data_length : Multipart.bChars.data.length = 75 := by decide

theorem bChars_no_space_below_74 :
    ∀ n : Nat, n < 74 → Multipart.bChars.data.get? n ≠ some ' ' := by decide

theorem floor_mul_bounds {q : ℚ} (h0 : 0 ≤ q) (h1 : q < 1) (n : Nat) (hn : 0 < n) :
    0 ≤ ⌊q * (n : ℚ)⌋ ∧ ⌊q * (n : ℚ)⌋ < (n : Int) := by
  constructor
  · exact Int.floor_nonneg.mpr (mul_nonneg h0 (by positivity))
  · apply Int.floor_lt.mpr
    push_cast
    calc q * (n : ℚ) < 1 * (n : ℚ) := by
          apply mul_lt_mul_of_pos_right h1
          exact_mod_cast hn
    _ = (n : ℚ) := one_mul _

theorem jsCharAtStr_of_bounds {i : Int} (h0 : 0 ≤ i) (h1 : i < (Multipart.bChars.data.length : Int)) :
    ∃ c, jsCharAtStr Multipart.bChars i = String.singleton c
      ∧ Multipart.bChars.data.get? i.toNat = some c ∧ c ∈ Multipart.bChars.data := by
  have hlt : i.toNat < Multipart.bChars.data.length := by omega
  unfold jsCharAtStr
  rw [if_neg (by omega)]
  rw [List.get?_eq_get hlt]
  exact ⟨_, rfl, rfl, List.get_mem _ _ _⟩

theorem foldl_strAppend_data (f : Nat → String) :
    ∀ (L : List Nat) (acc : String),
      (L.foldl (fun a i => a ++ f i) acc).data
        = acc.data ++ (L.map f).foldr (fun s r => s.data ++ r) []
  | [], acc => by simp
  | i :: L, acc => by
    simp only [List.foldl, List.map, List.foldr]
    rw [foldl_strAppend_data f L (acc ++ f i), String.data_append]
    simp [List.append_assoc]

theorem foldr_singleton_chars (f : Nat → String) :
    ∀ L : List Nat,
      (∀ i ∈ L, ∃ c, f i = String.singleton c ∧ c ∈ Multipart.bChars.data) →
      ∃ cs : List Char, ((L.map f).foldr (fun s r => s.data ++ r) []) = cs
        ∧ cs.length = L.length ∧ ∀ c ∈ cs, c ∈ Multipart.bChars.data
  | [], _ => ⟨[], rfl, rfl, by simp⟩
  | i :: L, hf => by
    obtain ⟨c, hc, hmem⟩ := hf i (by simp)
    obtain ⟨cs, hcs, hlen, hmem2⟩ := foldr_singleton_chars f L (fun j hj => hf j (by simp [hj]))
    refine ⟨c :: cs, ?_, by simp [hlen], ?_⟩
    · simp only [List.map, List.foldr, hc, hcs]
      rfl
    · intro d hd
      rcases List.mem_cons.mp hd with h | h
      · exact h ▸ hmem
      · exact hmem2 d h

theorem bChars_length_eq : Multipart.bChars.length = 75 := rfl

/-- C6: for every outcome of the random source within the JS contract
`0 ≤ Math.random() < 1`, the generated boundary has exactly 70
characters, characters 0-68 lie in the bchars alphabet, and character 69
lies in the alphabet minus the space (the boundary never ends in a
space). -/
theorem multipart_boundary_format (rnd : Nat → ℚ) (h : ∀ k, 0 ≤ rnd k ∧ rnd k < 1) :
    (Multipart.boundary rnd).length = 70
      ∧ (∀ i : Nat, i < 69 →
          ∃ c, (Multipart.boundary rnd).data.get? i = some c ∧ c ∈ Multipart.bChars.data)
      ∧ (∃ c, (Multipart.boundary rnd).data.get? 69 = some c
          ∧ c ∈ Multipart.bChars.data ∧ c ≠ ' ') := by
  have hcast : (Multipart.bChars.length : ℚ) = (75 : ℚ) := by rw [bChars_length_eq]; norm_num
  have hf : ∀ i ∈ List.range 69,
      ∃ c, jsCharAtStr Multipart.bChars ⌊rnd i * (Multipart.bChars.length : ℚ)⌋
          = String.singleton c ∧ c ∈ Multipart.bChars.data := by
    intro i _
    obtain ⟨hge, hlt⟩ := floor_mul_bounds (h i).1 (h i).2 75 (by norm_num)
    rw [hcast]
    obtain ⟨c, hc, -, hmem⟩ := jsCharAtStr_of_bounds hge (by rw [bChars_data_length]; exact_mod_cast hlt)
    exact ⟨c, hc, hmem⟩
  obtain ⟨cs, hcs, hlen, hmemcs⟩ := foldr_singleton_chars
    (fun i => jsCharAtStr Multipart.bChars ⌊rnd i * (Multipart.bChars.length : ℚ)⌋)
    (List.range 69) hf
  have hlen69 : cs.length = 69 := by simpa using hlen
  have hlast : ∃ c, jsCharAtStr Multipart.bChars ⌊rnd 69 * ((Multipart.bChars.length : ℚ) - 1)⌋
      = String.singleton c ∧ c ∈ Multipart.bChars.data ∧ c ≠ ' ' := by
    have hcast2 : (Multipart.bChars.length : ℚ) - 1 = ((74 : Nat) : ℚ) := by
      rw [bChars_length_eq]; norm_num
    obtain ⟨hge, hlt⟩ := floor_mul_bounds (h 69).1 (h 69).2 74 (by norm_num)
    rw [hcast2]
    obtain ⟨c, hc, hget, hmem⟩ := jsCharAtStr_of_bounds hge
      (by rw [bChars_data_length]; omega)
    refine ⟨c, hc, hmem, ?_⟩
    intro hsp
    exact bChars_no_space_below_74 _ (by omega) (hsp ▸ hget)
  obtain ⟨clast, hclast, hmemlast, hnsp⟩ := hlast
  have hdata : (Multipart.boundary rnd).data = cs ++ [clast] := by
    unfold Multipart.boundary
    rw [String.data_append, foldl_strAppend_data, hcs, hclast]
    rfl
  refine ⟨?_, ?_, ?_⟩
  · show (Multipart.boundary rnd).data.length = 70
    rw [hdata]
    simp [hlen69]
  · intro i hi
    rw [hdata, List.get?_append (by omega)]
    rw [List.get?_eq_get (by omega)]
    exact ⟨_, rfl, hmemcs _ (List.get_mem _ _ _)⟩
  · rw [hdata, List.get?_append_right (by omega)]
    rw [hlen69]
    exact ⟨clast, rfl, hmemlast, hnsp⟩

/-! ## Part encoding lemmas -/

theorem jsGet_eq_some {p : JPart} {k : String} {v : JVal} (h : jsGet p k = some v) :
    ∃ kv, kv ∈ p ∧ kv.1 = k ∧ kv.2 = v := by
  unfold jsGet at h
  rcases hf : p.find? (fun kv => kv.1 = k) with - | kv
  · rw [hf] at h
    simp at h
  · rw [hf] at h
    have h2 : kv.2 = v := by simpa using h
    refine ⟨kv, List.mem_of_find?_eq_some hf, ?_, h2⟩
    simpa using List.find?_some hf

theorem headerStr_empty_param (p : JPart) : headerStr "" p = partHeaderLines p := by
  induction p with
  | nil => rfl
  | cons kv rest ih =>
    have ih2 := ih
    simp only [partHeaderLines] at ih2
    by_cases hb : jsToLower kv.1 = "body"
    · simp [headerStr, partHeaderLines, List.filter_cons, hb, String.empty_append, ih2]
    · simp [headerStr, partHeaderLines, List.filter_cons, hb, ite_self,
        String.append_empty, ih2]

theorem encodePart_headers_only (fuel : Nat) (bs : Nat → String) (k : Nat) (p : JPart)
    (h : ∀ kv ∈ p, jsToLower kv.1 = "body" → kv.2 = JVal.str "") :
    encodePart (fuel + 1) bs k p = (headerStr "" p, k) := by
  have hBody : jsGet p "Body" = none ∨ jsGet p "Body" = some (JVal.str "") := by
    rcases hB : jsGet p "Body" with - | v
    · exact Or.inl rfl
    · obtain ⟨kv, hmem, hk, hv⟩ := jsGet_eq_some hB
      have hlow : jsToLower kv.1 = "body" := by rw [hk]; decide
      right
      rw [← hv, h kv hmem hlow]
  have hbody : jsGet p "body" = none ∨ jsGet p "body" = some (JVal.str "") := by
    rcases hB : jsGet p "body" with - | v
    · exact Or.inl rfl
    · obtain ⟨kv, hmem, hk, hv⟩ := jsGet_eq_some hB
      have hlow : jsToLower kv.1 = "body" := by rw [hk]; decide
      right
      rw [← hv, h kv hmem hlow]
  simp only [encodePart]
  rcases hBody with hB | hB <;> rcases hbody with hb | hb <;>
    simp [hB, hb, jsTruthy]

/-- C9: a part whose `body`/`Body` property is the empty string (the falsy
part value) encodes exactly like a part with no body property at all: the
lower-cased header lines, each with a CRLF, and neither blank-line
separator nor body text. -/
theorem multipart_part_empty_body (p : JPart) (bs : Nat → String)
    (h : ∀ kv ∈ p, jsToLower kv.1 = "body" → kv.2 = JVal.str "") :
    Multipart.part p bs = partHeaderLines p
      ∧ Multipart.part p bs
          = Multipart.part (p.filter fun kv => jsToLower kv.1 ≠ "body") bs := by
  have hpart : ∀ q : JPart, (∀ kv ∈ q, jsToLower kv.1 = "body" → kv.2 = JVal.str "") →
      Multipart.part q bs = partHeaderLines q := by
    intro q hq
    unfold Multipart.part
    rw [show JVal.fuelSizePart q * 2 + 8 = (JVal.fuelSizePart q * 2 + 7) + 1 from rfl]
    rw [encodePart_headers_only _ bs 0 q hq]
    exact headerStr_empty_param q
  have h1 := hpart p h
  have hfilter : ∀ kv ∈ (p.filter fun kv => jsToLower kv.1 ≠ "body"),
      jsToLower kv.1 = "body" → kv.2 = JVal.str "" := by
    intro kv hkv hlow
    have hne := List.of_mem_filter hkv
    simp only [decide_not, decide_eq_true_eq, Bool.not_eq_eq_eq_not, Bool.not_true] at hne
    exact absurd (by simpa using hlow) (by simpa using hne)
  have h2 := hpart _ hfilter
  have h3 : partHeaderLines (p.filter fun kv => jsToLower kv.1 ≠ "body") = partHeaderLines p := by
    unfold partHeaderLines
    rw [List.filter_filter]
    simp
  exact ⟨h1, by rw [h1, h2, h3]⟩

/-- C9 (witness): a concrete part with one header and an empty body. -/
theorem multipart_part_empty_body_witness :
    Multipart.part [("X-Note", JVal.str "hi"), ("body", JVal.str "")] (fun _ => "ZZ")
        = partHeaderLines [("X-Note", JVal.str "hi"), ("body", JVal.str "")]
      ∧ Multipart.part [("X-Note", JVal.str "hi"), ("body", JVal.str "")] (fun _ => "ZZ")
          = Multipart.part ([("X-Note", JVal.str "hi"), ("body", JVal.str "")].filter
              fun kv => jsToLower kv.1 ≠ "body") (fun _ => "ZZ") :=
  multipart_part_empty_body _ _ (by decide)

/-! ## Header folding and NavAL lemmas -/

/-- C7: one step of the header field body scanner at a CRLF.  Folding
(CRLF followed by a space or tab) absorbs the CRLF, retains the single
whitespace character in the field body, and continues scanning the same
field; CRLF followed by anything else ends the field, recording the
accumulated body (without the CRLF) under the scanned field name. -/
theorem multipart_header_folding (fuel : Nat) (body : String) (i : Nat)
    (fieldName fieldBody partBoundary : String) (part : JPart) (w : Char)
    (hlf : jsCharAt body (i + 1) = some '\n')
    (hw : jsCharAt body (i + 2) = some w) :
    ((w = ' ' ∨ w = '\t') →
      fieldBodyLoop (fuel + 1) body i (some '\r') fieldName fieldBody partBoundary part
        = fieldBodyLoop fuel body (i + 3) (jsCharAt body (i + 3)) fieldName
            (fieldBody.push w) partBoundary part)
      ∧ (w ≠ ' ' → w ≠ '\t' →
          fieldBodyLoop (fuel + 1) body i (some '\r') fieldName fieldBody partBoundary part
            = (i + 2, some w, "", "", partBoundary,
                jsSet part fieldName (JVal.str fieldBody))) := by
  constructor
  · intro hws
    simp only [fieldBodyLoop]
    rw [if_pos (by decide : ('\r'.val < 128))]
    rw [if_neg (by decide : ¬('\r' = ';'))]
    rw [if_pos ⟨rfl, hlf⟩]
    rw [hw]
    rcases hws with hws | hws <;> subst hws
    · rw [if_neg (by simp)]
      rfl
    · rw [if_neg (by simp)]
      rfl
  · intro hs ht
    simp only [fieldBodyLoop]
    rw [if_pos (by decide : ('\r'.val < 128))]
    rw [if_neg (by decide : ¬('\r' = ';'))]
    rw [if_pos ⟨rfl, hlf⟩]
    rw [hw]
    rw [if_pos ⟨by simpa using hs, by simpa using ht⟩]

/-- C7 (witness): the folding case on `"h\r\n x"`-style data and the
terminating case on `"h\r\nz"`-style data, at concrete positions. -/
theorem multipart_header_folding_witness :
    (fieldBodyLoop 1 "a\r\n b" 1 (some '\r') "h" "a" "" []
        = fieldBodyLoop 0 "a\r\n b" 4 (jsCharAt "a\r\n b" 4) "h" (String.push "a" ' ') "" [])
      ∧ (fieldBodyLoop 1 "a\r\nz" 1 (some '\r') "h" "a" "" []
          = (3, some 'z', "", "", "", jsSet [] "h" (JVal.str "a"))) :=
  ⟨(multipart_header_folding 0 "a\r\n b" 1 "h" "a" "" [] ' ' (by decide) (by decide)).1
      (Or.inl rfl),
   (multipart_header_folding 0 "a\r\nz" 1 "h" "a" "" [] 'z' (by decide) (by decide)).2
      (by decide) (by decide)⟩

/-- C8: `Naval.decode` is total and returns `[]` whenever `JSON.parse`
(the abstract `parse`) fails or produces a non-array value; it never
propagates a parse failure. -/
theorem naval_decode_non_array (parse : String → Option Json) (s : String)
    (h : ∀ l, parse s ≠ some (Json.arr l)) : Naval.decode parse s = [] := by
  unfold Naval.decode
  rcases hp : parse s with - | v
  · rfl
  · cases v with
    | arr l => exact absurd hp (h l)
    | null => rfl
    | bool b => rfl
    | num n => rfl
    | str t => rfl
    | obj o => rfl

/-- C8 (witness): a parse that fails on `"not json"` yields `[]`. -/
theorem naval_decode_non_array_witness :
    Naval.decode (fun _ => none) "not json" = [] :=
  naval_decode_non_array (fun _ => none) "not json" (fun _ h => Option.noConfusion h)

/-! ## Multipart concrete-scenario theorems -/

set_option maxRecDepth 1000000 in
/-- C1: on the two-part list of the concrete scenario (the repository's
own unit-test vector), the encoder produces exactly the documented
string; but decoding that string back yields a single part whose body has
swallowed the second delimiter and part, because the empty first part
contributes no blank line of its own, so the decoder treats the CRLF
before the middle delimiter as the header/body separator. -/
theorem multipart_concrete_scenario_bug :
    Multipart.encode
        [[], [("content-type", JVal.str "text/plain"), ("body", JVal.str "something")]]
        "B" (fun _ => "ZZ")
      = "--B\r\n\r\n--B\r\ncontent-type:text/plain\r\n\r\nsomething\r\n--B--"
    ∧ Multipart.decode "--B\r\n\r\n--B\r\ncontent-type:text/plain\r\n\r\nsomething\r\n--B--" "B"
      = [[("body", JVal.str "--B\r\ncontent-type:text/plain\r\n\r\nsomething")]] := ⟨rfl, rfl⟩

/-- C6 (witness): the boundary generated from the constant-zero random
source satisfies the format contract. -/
theorem multipart_boundary_format_witness :
    (Multipart.boundary (fun _ => (0 : ℚ))).length = 70
      ∧ (∀ i : Nat, i < 69 →
          ∃ c, (Multipart.boundary (fun _ => (0 : ℚ))).data.get? i = some c
            ∧ c ∈ Multipart.bChars.data)
      ∧ (∃ c, (Multipart.boundary (fun _ => (0 : ℚ))).data.get? 69 = some c
          ∧ c ∈ Multipart.bChars.data ∧ c ≠ ' ') :=
  multipart_boundary_format (fun _ => 0) (fun _ => ⟨le_refl 0, by norm_num⟩)

/-- C10 (witness for the amended theorem): on the specification's
concrete absolute URI the whole input is matched and reported back. -/
theorem uri_decode_total_href_witness :
    (Uri.decode "http://www.google.com:80/search?query=text#result").uri
        = "http://www.google.com:80/search?query=text#result"
      ∧ (Uri.decode "http://www.google.com:80/search?query=text#result").href
        = "http://www.google.com:80/search?query=text#result" :=
  uri_decode_total_href "http://www.google.com:80/search?query=text#result" (by decide)
